import Mathlib

/-!
Verification development for the event-signup bot in `src/main.py`.

The bot's logic is embedded shallowly:

* JSON documents (the persisted file and the in-memory `events` dict, which
  `load_data` takes verbatim from the file) are the inductive type `J`.
* Python dicts are association lists that preserve insertion order;
  assignment (`d[k] = v`) replaces in place or appends (`setField`,
  `setMsg`), lookup returns the first (unique) matching key.
* The reaction callbacks `on_raw_reaction_add` / `on_raw_reaction_remove`
  become pure functions from the bot state and the reaction payload to a
  `HandlerResult`: the next state, the role mutated on the member (if any),
  and whether `save_data()` / `update_event_message(...)` ran.  Fallible
  network lookups (guild, member, role) are Boolean/optional parameters;
  a Python exception escaping the callback is swallowed by the discord.py
  dispatcher before any mutation in these paths, so those branches return
  the state unchanged.
* Python `str`/`int` conversions on message-id keys and the per-entry
  `try/except` of `load_data` are modelled explicitly over `J`.
-/

/-- JSON values, as produced by `json.load` and consumed by `json.dump`.
JSON numbers are modelled as integers: every number the program itself
writes is a Python `int`, and no claim involves fractional values. -/
inductive J where
  | null : J
  | bool (b : Bool) : J
  | num (n : Int) : J
  | str (s : String) : J
  | arr (elems : List J) : J
  | obj (fields : List (String × J)) : J

/-- Python dict lookup `d[k]` on a JSON object (keys coming from JSON are
always strings and unique; first match). -/
def lookupF : List (String × J) → String → Option J
  | [], _ => none
  | (k0, v) :: rest, k => if k0 = k then some v else lookupF rest k

/-- Python dict assignment `d[k] = v`: replaces an existing key in place,
appends a new key at the end (insertion order). -/
def setField : List (String × J) → String → J → List (String × J)
  | [], k, v => [(k, v)]
  | (k0, v0) :: rest, k, v =>
      if k0 = k then (k0, v) :: rest else (k0, v0) :: setField rest k v

/-- Python truthiness of a JSON value (used by the `or {}` in `load_data`). -/
def jTruthy : J → Bool
  | J.null => false
  | J.bool b => b
  | J.num n => n != 0
  | J.str s => s != ""
  | J.arr elems => !elems.isEmpty
  | J.obj fields => !fields.isEmpty

/-- Python `display == x` for a string `display` against a JSON value:
`str.__eq__` is true only for an equal string, never for a non-string. -/
def jStrEq (d : String) : J → Bool
  | J.str s => d == s
  | _ => false

/-- Python `display in roster` for a roster list. -/
def memberName (roster : List J) (d : String) : Bool :=
  roster.any (jStrEq d)

/-- Number of occurrences of the display name `d` in a roster list. -/
def countName (roster : List J) (d : String) : Nat :=
  roster.countP (jStrEq d)

/-- Python `roster.remove(display)`: drops the first occurrence.  The code
guards the call with `display in roster`, so `ValueError` cannot arise. -/
def removeName : List J → String → List J
  | [], _ => []
  | x :: xs, d => if jStrEq d x then xs else x :: removeName xs d

/-! ## Emoji-to-index conversion (`emoji_to_index`, main.py lines 84-95) -/

/-- Numeric value of a run of ASCII decimal digits (Python `int(...)` on the
matched group). -/
def digitsVal (cs : List Char) : Nat :=
  cs.foldl (fun a c => a * 10 + (c.toNat - 48)) 0

/-- U+FE0F VARIATION SELECTOR-16. -/
def varSel : Char := Char.ofNat 0xFE0F

/-- U+20E3 COMBINING ENCLOSING KEYCAP. -/
def keycapMark : Char := Char.ofNat 0x20E3

/-- The keycap emoji for a digit, e.g. "1️⃣" = '1' + VS16 + U+20E3, exactly
as `str(payload.emoji)` renders it. -/
def keycap (d : Char) : List Char := [d, varSel, keycapMark]

/-- The emoji "🔟" (the single code point U+1F51F). -/
def tenEmoji : List Char := [Char.ofNat 0x1F51F]

/-- Function `emoji_to_index` from main.py.  `re.match(r"^(\d+)", s)` captures the
longest leading run of decimal digits (every emoji in scope uses ASCII
digits), and the function returns that value minus 1; the `ValueError`
branch is unreachable for a nonempty digit string. -/
def emoji_to_index (s : List Char) : Option Int :=
  if s = [] then none
  else if s = tenEmoji then some 9
  else
    let ds := s.takeWhile Char.isDigit
    if ds = [] then none
    else some ((digitsVal ds : Int) - 1)

/-! ## Role configuration (`ROLE_CONFIG`, main.py lines 48-54) -/

/-- Table `ROLE_CONFIG`: emoji string → (role name, description).  The emoji keys
are 🎮 U+1F3AE, 🎲 U+1F3B2, 🎉 U+1F389, 🏆 U+1F3C6, 🐉 U+1F409. -/
def ROLE_CONFIG : List (List Char × String × String) :=
  [([Char.ofNat 0x1F3AE], "Ranked games", "Spotkania rankingowe w klubie USMA"),
   ([Char.ofNat 0x1F3B2], "Casual games", "Luźne gry bez presji"),
   ([Char.ofNat 0x1F389], "Events",
     "Powiadomienia o wydarzeniach i spotkaniach typu konwenty, nauki dla osób z zewnątrz klubu"),
   ([Char.ofNat 0x1F3C6], "Tournaments", "Turnieje organizowane przez USMA"),
   ([Char.ofNat 0x1F409], "MCR", "Spotkania MCR (Mahjong Competition Rules)")]

def lookupRoleList : List (List Char × String × String) → List Char → Option (String × String)
  | [], _ => none
  | (k, r, d) :: rest, e => if e = k then some (r, d) else lookupRoleList rest e

/-- The test `str(payload.emoji) in ROLE_CONFIG` together with the value lookup. -/
def lookupRoleCfg (e : List Char) : Option (String × String) :=
  lookupRoleList ROLE_CONFIG e

/-! ## Bot state -/

/-- One entry of the `messages` dict: `{"nazwa": ..., "godziny": tuple,
"channel_id": int}`.  `nazwa` and the slot labels are `J` because
`load_data` stores `v.get("nazwa")` and `tuple(v.get("godziny", []))`
without type checks; every entry the commands create uses strings. -/
structure MsgEntry where
  nazwa : J
  godziny : List J
  channel_id : Int

/-- The global in-memory state: the `events` dict (taken verbatim from the
persisted JSON by `load_data`, hence `J`; every state the commands build is
a name → slot-label → list-of-display-names object) and the `messages`
dict keyed by integer message id. -/
structure BotState where
  events : J
  messages : List (Int × MsgEntry)

def lookupMsg : List (Int × MsgEntry) → Int → Option MsgEntry
  | [], _ => none
  | (k0, v) :: rest, k => if k0 = k then some v else lookupMsg rest k

/-- Python dict assignment on the `messages` dict. -/
def setMsg : List (Int × MsgEntry) → Int → MsgEntry → List (Int × MsgEntry)
  | [], k, v => [(k, v)]
  | (k0, v0) :: rest, k, v =>
      if k0 = k then (k0, v) :: rest else (k0, v0) :: setMsg rest k v

/-- Result of one raw-reaction callback: the next state, the role name
added/removed on the member (`member.add_roles` / `member.remove_roles`)
if the role branch completed, and whether the signup path mutated the
roster — `saved = true` exactly when `save_data()` and
`update_event_message(...)` were invoked. -/
structure HandlerResult where
  state : BotState
  roleAction : Option String
  saved : Bool

/-! ## Reaction handlers (main.py lines 359-405)

`on_raw_reaction_add` and `on_raw_reaction_remove` are textually identical
except that the roster block appends when the display name is absent
(add) versus removes it when present (remove), and the role branch calls
`add_roles` versus `remove_roles`; they are embedded as one function over
the flag `isAdd`, with wrappers carrying the source names.

Parameters model the payload and the fallible lookups:
`selfReact` = `payload.user_id == bot.user.id`; `guildOk` =
`bot.get_guild(payload.guild_id)` is not `None`; `member` = the display
name `safe_get_member` resolves to (`none` = lookup failed); `roleOk` =
`discord.utils.get(guild.roles, name=...)` found the role. -/

/-- The roster-signup part (the `if payload.message_id in messages:` block).
A `KeyError`/`TypeError` from `events[entry["nazwa"]][godzina]` (possible
only for states loaded from a hand-edited file) propagates out of the
callback before any mutation, which the dispatcher swallows: such branches
return the state unchanged with `saved = false`. -/
def rosterReaction (isAdd : Bool) (st : BotState) (emoji : List Char)
    (message_id : Int) (member : Option String) : HandlerResult :=
  match lookupMsg st.messages message_id with
  | none => ⟨st, none, false⟩
  | some entry =>
    match emoji_to_index emoji with
    | none => ⟨st, none, false⟩
    | some index =>
      if h : 0 ≤ index ∧ index < (entry.godziny.length : Int) then
        let godzina := entry.godziny.get ⟨index.toNat, by omega⟩
        match member with
        | none => ⟨st, none, false⟩
        | some display =>
          match entry.nazwa, st.events, godzina with
          | J.str nm, J.obj evFields, J.str g =>
            match lookupF evFields nm with
            | some (J.obj slotFields) =>
              match lookupF slotFields g with
              | some (J.arr roster) =>
                if isAdd then
                  if memberName roster display then ⟨st, none, false⟩
                  else
                    ⟨⟨J.obj (setField evFields nm
                        (J.obj (setField slotFields g
                          (J.arr (roster ++ [J.str display]))))),
                      st.messages⟩, none, true⟩
                else
                  if memberName roster display then
                    ⟨⟨J.obj (setField evFields nm
                        (J.obj (setField slotFields g
                          (J.arr (removeName roster display))))),
                      st.messages⟩, none, true⟩
                  else ⟨st, none, false⟩
              | _ => ⟨st, none, false⟩
            | _ => ⟨st, none, false⟩
          | _, _, _ => ⟨st, none, false⟩
      else ⟨st, none, false⟩

/-- The full raw-reaction callback.  The role branch fires when the guild
resolves and the emoji is a `ROLE_CONFIG` key; it returns (short-circuits)
only when both member and role resolve, otherwise control falls through to
the roster block exactly as in the source.  When `guildOk` is false,
`safe_get_member(None, ...)` in the roster block raises `AttributeError`,
so the member is effectively unresolved there. -/
def on_raw_reaction (isAdd : Bool) (st : BotState) (emoji : List Char)
    (message_id : Int) (selfReact guildOk : Bool) (member : Option String)
    (roleOk : Bool) : HandlerResult :=
  if selfReact then ⟨st, none, false⟩
  else
    match (if guildOk then lookupRoleCfg emoji else none), member, roleOk with
    | some cfg, some _, true => ⟨st, some cfg.1, false⟩
    | _, _, _ =>
      rosterReaction isAdd st emoji message_id (if guildOk then member else none)

/-- Callback `on_raw_reaction_add` from main.py. -/
def on_raw_reaction_add (st : BotState) (emoji : List Char) (message_id : Int)
    (selfReact guildOk : Bool) (member : Option String) (roleOk : Bool) :
    HandlerResult :=
  on_raw_reaction true st emoji message_id selfReact guildOk member roleOk

/-- Callback `on_raw_reaction_remove` from main.py. -/
def on_raw_reaction_remove (st : BotState) (emoji : List Char) (message_id : Int)
    (selfReact guildOk : Bool) (member : Option String) (roleOk : Bool) :
    HandlerResult :=
  on_raw_reaction false st emoji message_id selfReact guildOk member roleOk

/-- A sequence of raw reaction events on one message with one emoji, each
op being (is-add?, resolved display name); self-reaction false, guild and
role lookups succeeding. -/
def applyReactions (st : BotState) (emoji : List Char) (mid : Int)
    (ops : List (Bool × String)) : BotState :=
  ops.foldl
    (fun s op => (on_raw_reaction op.1 s emoji mid false true (some op.2) true).state)
    st

/-! ## Commands (`wydarzenie` lines 197-211, `rolemsg` lines 213-250) -/

/-- The state effect of the `!wydarzenie` command: `none` models the
"❌ Podaj godziny." early return (and the unreachable case of a non-dict
`events`); otherwise `events[nazwa] = {g: [] for g in godziny}` and
`messages[msg.id] = {"nazwa": nazwa, "godziny": tuple(godziny),
"channel_id": ...}`. -/
def wydarzenie (st : BotState) (nazwa : String) (godziny : List String)
    (mid channel : Int) : Option BotState :=
  if godziny.isEmpty then none
  else match st.events with
    | J.obj evFields =>
        some ⟨J.obj (setField evFields nazwa
                (J.obj (godziny.map (fun g => (g, J.arr []))))),
              setMsg st.messages mid ⟨J.str nazwa, godziny.map J.str, channel⟩⟩
    | _ => none

/-- The tracking entry the `!rolemsg` command stores for the role-selection
message: `{"nazwa": "rolemsg", "godziny": (), "channel_id": ...}` (line 248
of main.py) — note the empty slot tuple. -/
def rolemsgEntry (channel : Int) : MsgEntry :=
  ⟨J.str "rolemsg", [], channel⟩

/-! ## Roster renderer (`update_event_message`, main.py lines 335-356) -/

/-- The capacity line `info` computed for a nonempty slot roster of size
`num`: `pelne = num // 4`, `brak = 4 - (num % 4) if num % 4 != 0 else 0`. -/
def capacityLine (num : Nat) : String :=
  let pelne := num / 4
  let brak := if num % 4 != 0 then 4 - num % 4 else 0
  if brak == 0 then s!"🪑 Stoły: {pelne} (pełne)"
  else s!"🪑 Stoły: {pelne}, ❗ Brakuje {brak} do stołu"

/-- The rendered field body (`value`) for one slot in
`update_event_message`: the fixed marker for an empty roster, otherwise
the newline-joined names followed by the capacity line. -/
def slotFieldValue (osoby : List String) : String :=
  if osoby.isEmpty then "brak zapisanych"
  else String.intercalate "\n" osoby ++ "\n" ++ capacityLine osoby.length

/-- The same field body as the specification words it (section 4.3 /
section 8 of spec.md): full tables = floor(count / 4); if count is not a
multiple of 4, report 4 - count mod 4 more signups needed, else report all
tables full.  Written from the spec for the refinement comparison. -/
def slotFieldValueSpec (osoby : List String) : String :=
  if osoby.isEmpty then "brak zapisanych"
  else
    let count := osoby.length
    let fullTables := count / 4
    if count % 4 == 0 then
      String.intercalate "\n" osoby ++ "\n" ++ s!"🪑 Stoły: {fullTables} (pełne)"
    else
      let needed := 4 - count % 4
      String.intercalate "\n" osoby ++ "\n" ++
        s!"🪑 Stoły: {fullTables}, ❗ Brakuje {needed} do stołu"

/-! ## Advanced recurrence scheduler (`auto_events`, main.py lines 408-445) -/

/-- Gregorian leap year, as `datetime` implements it. -/
def isLeap (y : Nat) : Bool :=
  y % 4 == 0 && (y % 100 != 0 || y % 400 == 0)

/-- Days before the first of month `m` in a year (Gregorian). -/
def daysBeforeMonth (m : Nat) (leap : Bool) : Nat :=
  let base := [0, 31, 59, 90, 120, 151, 181, 212, 243, 273, 304, 334].getD (m - 1) 0
  if leap ∧ 2 < m then base + 1 else base

/-- Python `datetime.date.toordinal`: the proleptic Gregorian day number with
0001-01-01 = day 1.  `(a - b).days` on two dates equals
`toordinal a - toordinal b`. -/
def toordinal (y m d : Nat) : Nat :=
  365 * (y - 1) + (y - 1) / 4 - (y - 1) / 100 + (y - 1) / 400
    + daysBeforeMonth m (isLeap y) + d

/-- Python `s.split('-')` on the character list of a date string. -/
def splitOnDash : List Char → List (List Char)
  | [] => [[]]
  | c :: rest =>
    if c = '-' then [] :: splitOnDash rest
    else match splitOnDash rest with
      | g :: gs => (c :: g) :: gs
      | [] => [[c]]

/-- A nonempty all-digit character run parsed to its value. -/
def parseDigitsOpt (cs : List Char) : Option Nat :=
  if cs ≠ [] ∧ cs.all Char.isDigit then some (digitsVal cs) else none

/-- Python `datetime.strptime(s, "%Y-%m-%d").date()`, reduced to the year, month
and day fields.  (`strptime` additionally validates calendar ranges and
raises on failure; both dates in `SCHEDULED_EVENTS` are valid, so the
failure branch is never taken by the program.) -/
def parseYMD (s : String) : Option (Nat × Nat × Nat) :=
  match splitOnDash s.data with
  | [ys, ms, ds] =>
    match parseDigitsOpt ys, parseDigitsOpt ms, parseDigitsOpt ds with
    | some y, some m, some d => some (y, m, d)
    | _, _, _ => none
  | _ => none

/-- One entry of `SCHEDULED_EVENTS`. -/
structure SchedEvent where
  name : String
  times : List String
  start_date : String
  hour : Nat
  interval_days : Nat

def rankedSroda : SchedEvent :=
  ⟨"Ranked Środa", ["17:30", "19:00", "20:30", "22:00"], "2025-09-28", 19, 7⟩

def rankedSobota : SchedEvent :=
  ⟨"Ranked Sobota", ["16:00", "17:30", "19:00", "20:30", "22:00"], "2025-09-28", 19, 7⟩

def SCHEDULED_EVENTS : List SchedEvent := [rankedSroda, rankedSobota]

/-- The guard in `auto_events` (lines 429-432) deciding whether an advanced
rule fires on a tick: `delta_days = (now.date() - start_date.date()).days`,
fire iff `delta_days >= 0 and delta_days % interval_days == 0 and
now.hour == hour`.  `todayOrd` is `now.date().toordinal()`, `hourNow` is
`now.hour`. -/
def schedFires (sched : SchedEvent) (todayOrd : Nat) (hourNow : Nat) : Bool :=
  match parseYMD sched.start_date with
  | some (y, m, d) =>
    let delta : Int := (todayOrd : Int) - (toordinal y m d : Int)
    decide (0 ≤ delta) && decide (delta % (sched.interval_days : Int) = 0)
      && (hourNow == sched.hour)
  | none => false

/-! ## Persistence (`_serialize_for_save` lines 128-136, `load_data`
lines 146-169) -/

/-- ASCII digit character for a value below 10. -/
def digitChar (n : Nat) : Char := Char.ofNat (48 + n)

/-- Decimal digit characters of a natural number (fuel-structured so that
it reduces definitionally; `natDigits` supplies sufficient fuel). -/
def natDigitsAux : Nat → Nat → List Char
  | _, 0 => []
  | n, fuel + 1 =>
    if n < 10 then [digitChar n]
    else natDigitsAux (n / 10) fuel ++ [digitChar (n % 10)]

def natDigits (n : Nat) : List Char := natDigitsAux n (n + 1)

/-- Python `str` of an integer. -/
def intStr (n : Int) : String :=
  if n < 0 then String.mk ('-' :: natDigits (-n).toNat)
  else String.mk (natDigits n.toNat)

/-- Python `int` applied to a string: an optional minus sign followed by
digits; anything else raises `ValueError`.  (Python also strips whitespace,
accepts a leading `+` and allows `_` separators; no key the serializer
writes contains any of those.) -/
def pyIntParse (s : String) : Option Int :=
  match s.data with
  | [] => none
  | c :: rest =>
    if c = '-' then (parseDigitsOpt rest).map (fun n => -(n : Int))
    else (parseDigitsOpt (c :: rest)).map (fun n => (n : Int))

/-- Python `tuple(x)` on a JSON value: a list yields its elements, a string
yields its characters, a dict yields its keys, anything else raises
`TypeError` (→ `none`, the entry is skipped). -/
def pyTuple : J → Option (List J)
  | J.arr elems => some elems
  | J.str s => some (s.data.map (fun c => J.str (String.mk [c])))
  | J.obj fields => some (fields.map (fun p => J.str p.1))
  | _ => none

/-- Python `int(x)` on a JSON value: `int` itself, a numeric string, or a
bool; `None` and containers raise (→ `none`). -/
def pyInt : J → Option Int
  | J.num n => some n
  | J.str s => pyIntParse s
  | J.bool b => some (if b then 1 else 0)
  | _ => none

/-- One entry of the serialized `messages` object:
`dump_messages[str(mid)] = {"nazwa": ..., "godziny": list(...),
"channel_id": int(...)}`. -/
def serializeMsgEntry (p : Int × MsgEntry) : String × J :=
  (intStr p.1,
   J.obj [("nazwa", p.2.nazwa), ("godziny", J.arr p.2.godziny),
          ("channel_id", J.num p.2.channel_id)])

/-- Function `_serialize_for_save` from main.py: the document `json.dump` writes. -/
def _serialize_for_save (st : BotState) : J :=
  J.obj [("events", st.events),
         ("messages", J.obj (st.messages.map serializeMsgEntry))]

/-- The per-entry body of the `for k, v in raw_messages.items():` loop in
`load_data`, under its `try/except: continue`: `none` exactly when
`int(k)`, the `tuple(...)` conversion or `int(v.get("channel_id"))` raises
(or `v` is not a dict, making `v.get` raise). -/
def loadMsgEntry (p : String × J) : Option (Int × MsgEntry) :=
  match pyIntParse p.1 with
  | none => none
  | some mid =>
    match p.2 with
    | J.obj vf =>
      match pyTuple ((lookupF vf "godziny").getD (J.arr [])) with
      | none => none
      | some gs =>
        match pyInt ((lookupF vf "channel_id").getD J.null) with
        | none => none
        | some ch => some (mid, ⟨(lookupF vf "nazwa").getD J.null, gs, ch⟩)
    | _ => none

/-- The whole `messages` loop of `load_data`: each well-formed entry is
assigned into the fresh dict, each failing entry is skipped. -/
def loadMessages (ms : List (String × J)) : List (Int × MsgEntry) :=
  ms.foldl
    (fun acc kv =>
      match loadMsgEntry kv with
      | some (mid, e) => setMsg acc mid e
      | none => acc)
    []

/-- Function `load_data` from main.py, applied to an already-parsed JSON document.
A non-object document makes `data.get` raise, and a truthy non-dict
`messages` value makes `.items()` raise; the outer `except` then resets
both maps to empty.  (The missing-file and JSON-parse-failure cases are
below the `J` level and out of scope.) -/
def load_data (doc : J) : BotState :=
  match doc with
  | J.obj fields =>
    let evRaw := (lookupF fields "events").getD (J.obj [])
    let ev := if jTruthy evRaw then evRaw else J.obj []
    let msRaw := (lookupF fields "messages").getD (J.obj [])
    let msV := if jTruthy msRaw then msRaw else J.obj []
    match msV with
    | J.obj ms => ⟨ev, loadMessages ms⟩
    | _ => ⟨J.obj [], []⟩
  | _ => ⟨J.obj [], []⟩

/-! ## Core roster-toggle semantics, for stating the sequence invariants -/

/-- Effect of one add reaction on one slot's roster list:
append if absent. -/
def toggleAdd (roster : List J) (display : String) : List J :=
  if memberName roster display then roster else roster ++ [J.str display]

/-- Effect of one remove reaction on one slot's roster list:
remove the first occurrence if present. -/
def toggleRemove (roster : List J) (display : String) : List J :=
  if memberName roster display then removeName roster display else roster

/-- Fold of toggle operations (is-add?, display name) over a roster. -/
def applyToggles (roster : List J) (ops : List (Bool × String)) : List J :=
  ops.foldl
    (fun acc op => if op.1 then toggleAdd acc op.2 else toggleRemove acc op.2)
    roster

/-- The last operation applied to the name `d` in a sequence, if any. -/
def lastOpOn : List (Bool × String) → String → Option Bool
  | [], _ => none
  | op :: rest, d =>
    match lastOpOn rest d with
    | some b => some b
    | none => if op.2 = d then some op.1 else none

/-- The roster list a state holds at event name `nm`, slot label `g`. -/
def rosterAt (st : BotState) (nm g : String) : Option (List J) :=
  match st.events with
  | J.obj evFields =>
    match lookupF evFields nm with
    | some (J.obj slotFields) =>
      match lookupF slotFields g with
      | some (J.arr roster) => some roster
      | _ => none
    | _ => none
  | _ => none

/-- A small concrete state: one event "E" with the single slot "18:00",
rendered by tracked message 100 in channel 1, roster initially empty
(exactly what `!wydarzenie E 18:00` creates from the empty state). -/
def demoState : BotState :=
  ⟨J.obj [("E", J.obj [("18:00", J.arr [])])],
   [(100, ⟨J.str "E", [J.str "18:00"], 1⟩)]⟩

/-- A state whose single slot already holds the name "ala". -/
def demoState2 : BotState :=
  ⟨J.obj [("E", J.obj [("18:00", J.arr [J.str "ala"])])],
   [(100, ⟨J.str "E", [J.str "18:00"], 1⟩)]⟩

/-- The value the last occurrence of key `k` would leave in a dict built by
successive assignments from the list. -/
def lastVal : List (Int × MsgEntry) → Int → Option MsgEntry
  | [], _ => none
  | p :: rest, k =>
    match lastVal rest k with
    | some v => some v
    | none => if p.1 = k then some p.2 else none

/-! ## Theorems -/

theorem rosterAt_some_iff (st : BotState) (nm g : String) (r : List J) :
    rosterAt st nm g = some r ↔
      ∃ evFields slotFields, st.events = J.obj evFields ∧
        lookupF evFields nm = some (J.obj slotFields) ∧
        lookupF slotFields g = some (J.arr r) := by
  constructor
  · intro h
    unfold rosterAt at h
    cases hev : st.events <;> rw [hev] at h <;> try simp at h
    case obj evFields =>
      cases h1 : lookupF evFields nm <;> rw [h1] at h <;> try simp at h
      case some v =>
        cases v <;> try simp at h
        case obj slotFields =>
          cases h2 : lookupF slotFields g <;> rw [h2] at h <;> try simp at h
          case some w =>
            cases w <;> try simp at h
            case arr r2 =>
              cases h
              exact ⟨evFields, slotFields, rfl, h1, h2⟩
  · rintro ⟨evFields, slotFields, he, h1, h2⟩
    simp [rosterAt, he, h1, h2]

theorem roleKey_not_index (e : List Char) (c : String × String)
    (h : lookupRoleCfg e = some c) : emoji_to_index e = none := by
  unfold lookupRoleCfg ROLE_CONFIG at h
  simp only [lookupRoleList] at h
  split_ifs at h with h1 h2 h3 h4 h5 <;> (subst_vars; decide)

theorem lookupF_setField_self (fs : List (String × J)) (k : String) (v : J) :
    lookupF (setField fs k v) k = some v := by
  induction fs with
  | nil => simp [setField, lookupF]
  | cons p rest ih =>
    by_cases h : p.1 = k
    · simp [setField, h, lookupF]
    · simpa [setField, h, lookupF] using ih

/-- One signup-path reaction, in context: the tracked entry, a valid slot
index, a resolving member and a well-formed roster at the slot.  The
handler performs exactly the core toggle on that slot's roster and leaves
the `messages` map unchanged. -/
theorem roster_step (isAdd : Bool) (st : BotState) (emoji : List Char)
    (mid : Int) (nm g : String) (index : Int) (entry : MsgEntry)
    (r : List J) (d : String)
    (hmsg : lookupMsg st.messages mid = some entry)
    (hnm : entry.nazwa = J.str nm)
    (hidx : emoji_to_index emoji = some index)
    (h0 : 0 ≤ index)
    (hget : entry.godziny.get? index.toNat = some (J.str g))
    (hros : rosterAt st nm g = some r) :
    rosterAt (on_raw_reaction isAdd st emoji mid false true (some d) true).state nm g
        = some (if isAdd then toggleAdd r d else toggleRemove r d)
      ∧ (on_raw_reaction isAdd st emoji mid false true (some d) true).state.messages
        = st.messages := by
  obtain ⟨evFields, slotFields, hev, h1, h2⟩ := (rosterAt_some_iff st nm g r).mp hros
  have hcfg : lookupRoleCfg emoji = none := by
    cases hc : lookupRoleCfg emoji with
    | none => rfl
    | some c => rw [roleKey_not_index emoji c hc] at hidx; cases hidx
  obtain ⟨hlt, hgetv⟩ := List.get?_eq_some.mp hget
  have hb : 0 ≤ index ∧ index < (entry.godziny.length : Int) := ⟨h0, by omega⟩
  simp only [on_raw_reaction, rosterReaction, Bool.false_eq_true, if_false, if_true,
    hcfg, hmsg, hidx]
  rw [dif_pos hb]
  simp only [hgetv, hnm, hev, h1, h2]
  cases isAdd <;> cases hmem : memberName r d <;>
      simp only [hmem, Bool.false_eq_true, if_false, if_true, toggleAdd, toggleRemove] <;>
      refine ⟨?_, trivial⟩
  · exact hros
  · rw [rosterAt_some_iff]
    exact ⟨_, _, rfl, lookupF_setField_self _ _ _, lookupF_setField_self _ _ _⟩
  · rw [rosterAt_some_iff]
    exact ⟨_, _, rfl, lookupF_setField_self _ _ _, lookupF_setField_self _ _ _⟩
  · exact hros

theorem jStrEq_eq_true_iff (d : String) (x : J) : jStrEq d x = true ↔ x = J.str d := by
  cases x <;> simp [jStrEq]
  exact eq_comm

theorem memberName_eq_false_iff (r : List J) (d : String) :
    memberName r d = false ↔ countName r d = 0 := by
  unfold memberName countName
  rw [List.countP_eq_zero]
  constructor
  · intro h a ha hpa
    exact absurd (List.any_eq_true.mpr ⟨a, ha, hpa⟩) (by simp [h])
  · intro h
    by_contra hne
    have h2 : r.any (jStrEq d) = true := by simpa using hne
    obtain ⟨a, ha, hpa⟩ := List.any_eq_true.mp h2
    exact (h a ha) hpa

theorem countName_append (r1 r2 : List J) (d : String) :
    countName (r1 ++ r2) d = countName r1 d + countName r2 d :=
  List.countP_append _ _ _

theorem countName_removeName_self (r : List J) (d : String) :
    countName (removeName r d) d = countName r d - 1 := by
  induction r with
  | nil => simp [removeName, countName]
  | cons x xs ih =>
    by_cases h : jStrEq d x = true
    · simp [removeName, h, countName, List.countP_cons]
    · have h2 : jStrEq d x = false := by simpa using h
      simp only [removeName, h2, Bool.false_eq_true, if_false, countName,
        List.countP_cons, h2] at *
      omega

theorem countName_removeName_other (r : List J) (d x : String) (hne : x ≠ d) :
    countName (removeName r d) x = countName r x := by
  induction r with
  | nil => rfl
  | cons y ys ih =>
    by_cases h : jStrEq d y = true
    · have hy : y = J.str d := (jStrEq_eq_true_iff d y).mp h
      have hx : jStrEq x y = false := by
        cases hxe : jStrEq x y
        · rfl
        · exact absurd (by rw [(jStrEq_eq_true_iff x y).mp hxe] at hy; exact (J.str.injEq _ _).mp hy.symm ▸ rfl : x = d) hne
      simp [removeName, h, countName, List.countP_cons, hx]
    · have h2 : jStrEq d y = false := by simpa using h
      simp only [removeName, h2, Bool.false_eq_true, if_false, countName, List.countP_cons] at *
      omega

theorem memberName_append_single (r : List J) (d x : String) :
    memberName (r ++ [J.str d]) x = (memberName r x || (x == d)) := by
  unfold memberName
  rw [List.any_append]
  simp [jStrEq]

theorem countName_single (d x : String) :
    countName [J.str d] x = if x = d then 1 else 0 := by
  by_cases hx : x = d <;> simp [countName, List.countP_cons, jStrEq, hx]

theorem toggle_count_le_one (r : List J) (d : String) (b : Bool)
    (h : ∀ x, countName r x ≤ 1) :
    ∀ x, countName (if b then toggleAdd r d else toggleRemove r d) x ≤ 1 := by
  intro x
  cases b
  · simp only [Bool.false_eq_true, if_false, toggleRemove]
    cases hm : memberName r d
    · simpa [hm] using h x
    · simp only [hm, if_true]
      by_cases hx : x = d
      · subst hx
        rw [countName_removeName_self]
        have hcd := h x
        omega
      · rw [countName_removeName_other r d x hx]; exact h x
  · simp only [if_true, toggleAdd]
    cases hm : memberName r d
    · simp only [hm, Bool.false_eq_true, if_false]
      rw [countName_append, countName_single]
      by_cases hx : x = d
      · subst hx
        have h0 : countName r x = 0 := (memberName_eq_false_iff r x).mp hm
        simp [h0]
      · have hcd := h x
        simp only [hx, if_false]
        omega
    · simpa [hm] using h x

theorem memberName_toggle_self (r : List J) (d : String) (b : Bool)
    (h : ∀ x, countName r x ≤ 1) :
    memberName (if b then toggleAdd r d else toggleRemove r d) d = b := by
  cases b
  · simp only [Bool.false_eq_true, if_false, toggleRemove]
    cases hm : memberName r d
    · simpa using hm
    · simp only [hm, if_true]
      rw [memberName_eq_false_iff, countName_removeName_self]
      have h1 : countName r d ≤ 1 := h d
      have h2 : countName r d ≠ 0 := by
        intro h0
        rw [← memberName_eq_false_iff] at h0
        rw [h0] at hm; cases hm
      omega
  · simp only [if_true, toggleAdd]
    cases hm : memberName r d
    · simp only [hm, Bool.false_eq_true, if_false]
      rw [memberName_append_single]
      simp
    · simp [hm]

theorem memberName_toggle_other (r : List J) (d x : String) (b : Bool)
    (hne : x ≠ d) :
    memberName (if b then toggleAdd r d else toggleRemove r d) x = memberName r x := by
  cases b
  · simp only [Bool.false_eq_true, if_false, toggleRemove]
    cases hm : memberName r d
    · rfl
    · simp only [hm, if_true]
      cases hx : memberName r x
      · rw [memberName_eq_false_iff] at hx ⊢
        rw [countName_removeName_other r d x hne]; exact hx
      · cases hgoal : memberName (removeName r d) x
        · rw [memberName_eq_false_iff, countName_removeName_other r d x hne,
            ← memberName_eq_false_iff, hx] at hgoal
          cases hgoal
        · rfl
  · simp only [if_true, toggleAdd]
    cases hm : memberName r d
    · simp only [hm, Bool.false_eq_true, if_false]
      rw [memberName_append_single]
      simp [hne]
    · rfl

theorem applyToggles_count_le_one (ops : List (Bool × String)) (r : List J)
    (h : ∀ x, countName r x ≤ 1) :
    ∀ x, countName (applyToggles r ops) x ≤ 1 := by
  induction ops generalizing r with
  | nil => exact h
  | cons op rest ih =>
    simp only [applyToggles, List.foldl_cons] at *
    exact ih _ (toggle_count_le_one r op.2 op.1 h)

theorem memberName_applyToggles (ops : List (Bool × String)) (r : List J)
    (d : String) (h : ∀ x, countName r x ≤ 1) :
    memberName (applyToggles r ops) d = (lastOpOn ops d).getD (memberName r d) := by
  induction ops generalizing r with
  | nil => rfl
  | cons op rest ih =>
    have step : applyToggles r (op :: rest)
        = applyToggles (if op.1 then toggleAdd r op.2 else toggleRemove r op.2) rest := by
      simp [applyToggles]
    have hcons : lastOpOn (op :: rest) d
        = match lastOpOn rest d with
          | some b => some b
          | none => if op.2 = d then some op.1 else none := rfl
    rw [step, ih _ (toggle_count_le_one r op.2 op.1 h), hcons]
    cases hro : lastOpOn rest d
    · simp only [Option.getD_none]
      by_cases hod : op.2 = d
      · subst hod
        simp [memberName_toggle_self r op.2 op.1 h]
      · simp [hod, memberName_toggle_other r op.2 d op.1 (fun hc => hod hc.symm)]
    · simp

/-- Folding a reaction sequence over the handlers performs exactly the fold
of the core toggles on the addressed slot's roster. -/
theorem roster_fold (ops : List (Bool × String)) (st : BotState)
    (emoji : List Char) (mid : Int) (nm g : String) (index : Int)
    (entry : MsgEntry) (r : List J)
    (hmsg : lookupMsg st.messages mid = some entry)
    (hnm : entry.nazwa = J.str nm)
    (hidx : emoji_to_index emoji = some index)
    (h0 : 0 ≤ index)
    (hget : entry.godziny.get? index.toNat = some (J.str g))
    (hros : rosterAt st nm g = some r) :
    rosterAt (applyReactions st emoji mid ops) nm g = some (applyToggles r ops)
      ∧ (applyReactions st emoji mid ops).messages = st.messages := by
  induction ops generalizing st r with
  | nil => exact ⟨hros, rfl⟩
  | cons op rest ih =>
    have hstep := roster_step op.1 st emoji mid nm g index entry r op.2
      hmsg hnm hidx h0 hget hros
    have hstate : applyReactions st emoji mid (op :: rest)
        = applyReactions (on_raw_reaction op.1 st emoji mid false true (some op.2) true).state
            emoji mid rest := by
      simp [applyReactions]
    have htog : applyToggles r (op :: rest)
        = applyToggles (if op.1 then toggleAdd r op.2 else toggleRemove r op.2) rest := by
      simp [applyToggles]
    rw [hstate, htog]
    have hmsg2 : lookupMsg (on_raw_reaction op.1 st emoji mid false true (some op.2) true).state.messages mid
        = some entry := by rw [hstep.2]; exact hmsg
    have hrec := ih _ _ hmsg2 hstep.1
    exact ⟨hrec.1, hrec.2.trans hstep.2⟩

theorem rosterReaction_roleAction_none (isAdd : Bool) (st : BotState)
    (emoji : List Char) (mid : Int) (mem : Option String) :
    (rosterReaction isAdd st emoji mid mem).roleAction = none := by
  unfold rosterReaction
  dsimp only
  repeat' split
  all_goals rfl

theorem rosterReaction_no_index (isAdd : Bool) (st : BotState)
    (emoji : List Char) (mid : Int) (mem : Option String)
    (hidx : emoji_to_index emoji = none) :
    rosterReaction isAdd st emoji mid mem = ⟨st, none, false⟩ := by
  unfold rosterReaction
  cases h : lookupMsg st.messages mid
  · rfl
  · rw [hidx]

theorem out_of_range_noop (isAdd : Bool) (st : BotState) (emoji : List Char)
    (mid : Int) (sR gOk : Bool) (mem : Option String) (rOk : Bool)
    (entry : MsgEntry) (index : Int)
    (hmsg : lookupMsg st.messages mid = some entry)
    (hidx : emoji_to_index emoji = some index)
    (hout : ¬(0 ≤ index ∧ index < (entry.godziny.length : Int))) :
    (on_raw_reaction isAdd st emoji mid sR gOk mem rOk).state = st
      ∧ (on_raw_reaction isAdd st emoji mid sR gOk mem rOk).saved = false := by
  unfold on_raw_reaction
  split
  · exact ⟨rfl, rfl⟩
  · split
    · exact ⟨rfl, rfl⟩
    · unfold rosterReaction
      rw [hmsg, hidx]
      dsimp only
      rw [dif_neg hout]
      exact ⟨rfl, rfl⟩

theorem roleKey_noop (isAdd : Bool) (st : BotState) (emoji : List Char)
    (mid : Int) (sR gOk : Bool) (mem : Option String) (rOk : Bool)
    (hcfg : (lookupRoleCfg emoji).isSome = true) :
    (on_raw_reaction isAdd st emoji mid sR gOk mem rOk).state = st
      ∧ (on_raw_reaction isAdd st emoji mid sR gOk mem rOk).saved = false := by
  obtain ⟨c, hc⟩ := Option.isSome_iff_exists.mp hcfg
  have hidx : emoji_to_index emoji = none := roleKey_not_index emoji c hc
  unfold on_raw_reaction
  split
  · exact ⟨rfl, rfl⟩
  · split
    · exact ⟨rfl, rfl⟩
    · rw [rosterReaction_no_index _ _ _ _ _ hidx]
      exact ⟨rfl, rfl⟩

/-- Either the reaction proceeds into the roster-signup block, or the
callback ends with the state unchanged and nothing saved (self-reaction or
a completed role toggle). -/
theorem on_raw_shape (isAdd : Bool) (st : BotState) (emoji : List Char)
    (mid : Int) (sR gOk : Bool) (mem : Option String) (rOk : Bool) :
    on_raw_reaction isAdd st emoji mid sR gOk mem rOk
        = rosterReaction isAdd st emoji mid (if gOk then mem else none)
      ∨ ((on_raw_reaction isAdd st emoji mid sR gOk mem rOk).state = st
          ∧ (on_raw_reaction isAdd st emoji mid sR gOk mem rOk).saved = false) := by
  unfold on_raw_reaction
  split
  · right; exact ⟨rfl, rfl⟩
  · split
    · right; exact ⟨rfl, rfl⟩
    · left; rfl

theorem roleAction_noop (isAdd : Bool) (st : BotState) (emoji : List Char)
    (mid : Int) (sR gOk : Bool) (mem : Option String) (rOk : Bool)
    (hra : (on_raw_reaction isAdd st emoji mid sR gOk mem rOk).roleAction.isSome = true) :
    (on_raw_reaction isAdd st emoji mid sR gOk mem rOk).state = st
      ∧ (on_raw_reaction isAdd st emoji mid sR gOk mem rOk).saved = false := by
  rcases on_raw_shape isAdd st emoji mid sR gOk mem rOk with hsh | hsh
  · rw [hsh, rosterReaction_roleAction_none] at hra
    cases hra
  · exact hsh

/-- C3: which of role-toggle and roster-signup applies is a function of the
emoji alone; a completed role toggle leaves the state untouched, a roster
mutation implies no role was touched. -/
theorem c3_role_roster_exclusive :
    (∀ isAdd st emoji mid sR gOk mem rOk,
        (lookupRoleCfg emoji).isSome = true →
        (on_raw_reaction isAdd st emoji mid sR gOk mem rOk).state = st
          ∧ (on_raw_reaction isAdd st emoji mid sR gOk mem rOk).saved = false)
    ∧ (∀ isAdd st emoji mid sR gOk mem rOk,
        (on_raw_reaction isAdd st emoji mid sR gOk mem rOk).roleAction.isSome = true →
        (on_raw_reaction isAdd st emoji mid sR gOk mem rOk).state = st
          ∧ (on_raw_reaction isAdd st emoji mid sR gOk mem rOk).saved = false)
    ∧ (∀ isAdd st emoji mid sR gOk mem rOk,
        (on_raw_reaction isAdd st emoji mid sR gOk mem rOk).saved = true →
        (on_raw_reaction isAdd st emoji mid sR gOk mem rOk).roleAction = none)
    ∧ (∀ isAdd st st2 emoji mid mid2 sR gOk mem rOk,
        (on_raw_reaction isAdd st emoji mid sR gOk mem rOk).roleAction
          = (on_raw_reaction isAdd st2 emoji mid2 sR gOk mem rOk).roleAction) := by
  refine ⟨roleKey_noop, roleAction_noop, ?_, ?_⟩
  · intro isAdd st emoji mid sR gOk mem rOk hsv
    rcases on_raw_shape isAdd st emoji mid sR gOk mem rOk with hsh | hsh
    · rw [hsh, rosterReaction_roleAction_none]
    · rw [hsh.2] at hsv; cases hsv
  · intro isAdd st st2 emoji mid mid2 sR gOk mem rOk
    cases sR
    · simp only [on_raw_reaction, Bool.false_eq_true, if_false]
      cases hc : (if gOk then lookupRoleCfg emoji else none) <;>
        cases mem <;> cases rOk <;>
          simp [rosterReaction_roleAction_none]
    · simp [on_raw_reaction]

theorem demoState_from_wydarzenie :
    wydarzenie ⟨J.obj [], []⟩ "E" ["18:00"] 100 1 = some demoState := rfl

/-- C1 as stated is false: after add "a", add "a", remove "a" on the valid
slot 0, the net number of adds minus removes for "a" is 1 (odd), yet "a"
is not in the roster — the second add was a no-op, and the remove erased
the name. -/
theorem c1_parity_counterexample :
    ¬ (memberName
          ((rosterAt
              (applyReactions demoState (keycap '1') 100
                [(true, "a"), (true, "a"), (false, "a")])
              "E" "18:00").getD [])
          "a" = true
        ↔ ((([(true, "a"), (true, "a"), (false, "a")] : List (Bool × String)).countP
              (fun p => p.1 && (p.2 == "a")) : Int)
            - (([(true, "a"), (true, "a"), (false, "a")] : List (Bool × String)).countP
              (fun p => !p.1 && (p.2 == "a")))) % 2 = 1) := by
  decide

/-- C1 (amended): over any reaction sequence on a valid slot of a tracked
roster message with members resolving, each name occurs at most once, and
a name is present exactly when the last operation on it was an add. -/
theorem c1_roster_membership (st : BotState) (emoji : List Char) (mid : Int)
    (nm g : String) (index : Int) (entry : MsgEntry)
    (ops : List (Bool × String))
    (hmsg : lookupMsg st.messages mid = some entry)
    (hnm : entry.nazwa = J.str nm)
    (hidx : emoji_to_index emoji = some index)
    (h0 : 0 ≤ index)
    (hget : entry.godziny.get? index.toNat = some (J.str g))
    (hros : rosterAt st nm g = some []) :
    ∃ r, rosterAt (applyReactions st emoji mid ops) nm g = some r
      ∧ (∀ d, countName r d ≤ 1)
      ∧ (∀ d, memberName r d = (lastOpOn ops d).getD false) := by
  have hempty : ∀ x, countName ([] : List J) x ≤ 1 := by
    intro x; simp [countName]
  refine ⟨applyToggles [] ops,
    (roster_fold ops st emoji mid nm g index entry [] hmsg hnm hidx h0 hget hros).1,
    applyToggles_count_le_one ops [] hempty, ?_⟩
  intro d
  rw [memberName_applyToggles ops [] d hempty]
  rfl

theorem c1_roster_membership_witness :
    ∃ r, rosterAt (applyReactions demoState (keycap '1') 100
          [(true, "ala"), (false, "ala"), (true, "ola")]) "E" "18:00" = some r
      ∧ (∀ d, countName r d ≤ 1)
      ∧ (∀ d, memberName r d
          = (lastOpOn [(true, "ala"), (false, "ala"), (true, "ola")] d).getD false) :=
  c1_roster_membership demoState (keycap '1') 100 "E" "18:00" 0
    ⟨J.str "E", [J.str "18:00"], 1⟩ [(true, "ala"), (false, "ala"), (true, "ola")]
    rfl rfl (by decide) (by decide) rfl rfl

/-- C7: a reaction-add for a name already present, or a reaction-remove for
an absent name, returns the state unchanged with no save and no re-render
(and no role action). -/
theorem c7_toggle_idempotent (st : BotState) (emoji : List Char) (mid : Int)
    (nm g : String) (index : Int) (entry : MsgEntry) (r : List J) (d : String)
    (hmsg : lookupMsg st.messages mid = some entry)
    (hnm : entry.nazwa = J.str nm)
    (hidx : emoji_to_index emoji = some index)
    (h0 : 0 ≤ index)
    (hget : entry.godziny.get? index.toNat = some (J.str g))
    (hros : rosterAt st nm g = some r) :
    (memberName r d = true →
      on_raw_reaction true st emoji mid false true (some d) true = ⟨st, none, false⟩)
    ∧ (memberName r d = false →
      on_raw_reaction false st emoji mid false true (some d) true = ⟨st, none, false⟩) := by
  obtain ⟨evFields, slotFields, hev, h1, h2⟩ := (rosterAt_some_iff st nm g r).mp hros
  have hcfg : lookupRoleCfg emoji = none := by
    cases hc : lookupRoleCfg emoji with
    | none => rfl
    | some c => rw [roleKey_not_index emoji c hc] at hidx; cases hidx
  obtain ⟨hlt, hgetv⟩ := List.get?_eq_some.mp hget
  have hb : 0 ≤ index ∧ index < (entry.godziny.length : Int) := ⟨h0, by omega⟩
  constructor <;> intro hmem <;>
    simp only [on_raw_reaction, rosterReaction, Bool.false_eq_true, if_false,
      if_true, hcfg, hmsg, hidx] <;>
    rw [dif_pos hb] <;>
    simp only [hgetv, hnm, hev, h1, h2, hmem, Bool.false_eq_true, if_true, if_false]

/-- C9: the slot tuple is read only under the bounds guard; an index below
zero (e.g. the one "0️⃣" parses to) or at/above the slot count leaves the
state unmutated and unsaved, and the guard implies the read is in range. -/
theorem c9_bounds_guard :
    (∀ isAdd st emoji mid sR gOk mem rOk (entry : MsgEntry) (index : Int),
        lookupMsg st.messages mid = some entry →
        emoji_to_index emoji = some index →
        ¬(0 ≤ index ∧ index < (entry.godziny.length : Int)) →
        (on_raw_reaction isAdd st emoji mid sR gOk mem rOk).state = st
          ∧ (on_raw_reaction isAdd st emoji mid sR gOk mem rOk).saved = false)
    ∧ emoji_to_index (keycap '0') = some (-1)
    ∧ (∀ (gs : List J) (index : Int), 0 ≤ index → index < (gs.length : Int) →
        (gs.get? index.toNat).isSome = true) := by
  refine ⟨fun isAdd st emoji mid sR gOk mem rOk entry index hmsg hidx hout =>
      out_of_range_noop isAdd st emoji mid sR gOk mem rOk entry index hmsg hidx hout,
    by decide, ?_⟩
  intro gs index h0 hlen
  have h : index.toNat < gs.length := by omega
  rw [List.get?_eq_get h]
  rfl

theorem c9_bounds_guard_witness :
    (on_raw_reaction true demoState (keycap '0') 100 false true (some "u") true).state
        = demoState
      ∧ (on_raw_reaction true demoState (keycap '0') 100 false true (some "u") true).saved
        = false :=
  c9_bounds_guard.1 true demoState (keycap '0') 100 false true (some "u") true
    ⟨J.str "E", [J.str "18:00"], 1⟩ (-1) rfl (by decide) (by decide)

/-- C10: any reaction on the tracked role-selection message (empty slot
tuple) leaves the whole state — in particular every event roster —
unchanged, with nothing saved. -/
theorem c10_rolemsg_no_roster (isAdd : Bool) (st : BotState) (emoji : List Char)
    (mid : Int) (sR gOk : Bool) (mem : Option String) (rOk : Bool) (c : Int)
    (hmsg : lookupMsg st.messages mid = some (rolemsgEntry c)) :
    (on_raw_reaction isAdd st emoji mid sR gOk mem rOk).state = st
      ∧ (on_raw_reaction isAdd st emoji mid sR gOk mem rOk).saved = false := by
  rcases on_raw_shape isAdd st emoji mid sR gOk mem rOk with hsh | hsh
  · rw [hsh]
    unfold rosterReaction
    rw [hmsg]
    cases hidx : emoji_to_index emoji
    · exact ⟨rfl, rfl⟩
    · dsimp only
      rw [dif_neg (by simp only [rolemsgEntry, List.length_nil, Nat.cast_zero]; omega)]
      exact ⟨rfl, rfl⟩
  · exact hsh

theorem c10_rolemsg_no_roster_witness :
    (on_raw_reaction true
        ⟨J.obj [("E", J.obj [("18:00", J.arr [])])], [(200, rolemsgEntry 1)]⟩
        (keycap '1') 200 false true (some "u") true).state
      = ⟨J.obj [("E", J.obj [("18:00", J.arr [])])], [(200, rolemsgEntry 1)]⟩ :=
  (c10_rolemsg_no_roster true
    ⟨J.obj [("E", J.obj [("18:00", J.arr [])])], [(200, rolemsgEntry 1)]⟩
    (keycap '1') 200 false true (some "u") true 1 rfl).1

/-- C2 as stated is false: "0️⃣" is not among the ten listed emoji, yet the
conversion yields an index, namely -1 (the digit prefix "0" minus 1). -/
theorem c2_keycap_zero_counterexample :
    emoji_to_index (keycap '0') = some (-1)
      ∧ keycap '0' ∉ [keycap '1', keycap '2', keycap '3', keycap '4', keycap '5',
          keycap '6', keycap '7', keycap '8', keycap '9', tenEmoji] := by
  decide

/-- C2 (amended): keycaps 1..9 map to 0..8 and 🔟 to 9; any other emoji
beginning with a decimal digit maps to its digit prefix minus 1, an emoji
not beginning with a digit yields no index, and an index at or above the
slot count leaves the state untouched. -/
theorem c2_emoji_index_amended :
    (emoji_to_index (keycap '1') = some 0 ∧ emoji_to_index (keycap '2') = some 1
      ∧ emoji_to_index (keycap '3') = some 2 ∧ emoji_to_index (keycap '4') = some 3
      ∧ emoji_to_index (keycap '5') = some 4 ∧ emoji_to_index (keycap '6') = some 5
      ∧ emoji_to_index (keycap '7') = some 6 ∧ emoji_to_index (keycap '8') = some 7
      ∧ emoji_to_index (keycap '9') = some 8 ∧ emoji_to_index tenEmoji = some 9)
    ∧ (∀ (c : Char) (cs : List Char), c.isDigit = true → (c :: cs) ≠ tenEmoji →
        emoji_to_index (c :: cs)
          = some ((digitsVal ((c :: cs).takeWhile Char.isDigit) : Int) - 1))
    ∧ (∀ s : List Char, (∀ c cs, s = c :: cs → c.isDigit = false) → s ≠ tenEmoji →
        emoji_to_index s = none)
    ∧ (∀ isAdd st emoji mid sR gOk mem rOk (entry : MsgEntry) (index : Int),
        lookupMsg st.messages mid = some entry →
        emoji_to_index emoji = some index →
        (entry.godziny.length : Int) ≤ index →
        (on_raw_reaction isAdd st emoji mid sR gOk mem rOk).state = st
          ∧ (on_raw_reaction isAdd st emoji mid sR gOk mem rOk).saved = false) := by
  refine ⟨by decide, ?_, ?_, ?_⟩
  · intro c cs hc hne
    unfold emoji_to_index
    rw [if_neg (by simp), if_neg hne]
    have htw : (c :: cs).takeWhile Char.isDigit = c :: cs.takeWhile Char.isDigit := by
      simp [List.takeWhile_cons, hc]
    rw [htw]
    simp
  · intro s hnd hne
    match s with
    | [] => rfl
    | c :: cs =>
      have hc : c.isDigit = false := hnd c cs rfl
      unfold emoji_to_index
      rw [if_neg (by simp), if_neg hne]
      have htw : (c :: cs).takeWhile Char.isDigit = [] := by
        simp [List.takeWhile_cons, hc]
      rw [htw]
      simp
  · intro isAdd st emoji mid sR gOk mem rOk entry index hmsg hidx hge
    exact out_of_range_noop isAdd st emoji mid sR gOk mem rOk entry index hmsg hidx
      (by omega)

theorem c2_emoji_index_witness :
    emoji_to_index ['4', '2']
        = some ((digitsVal (['4', '2'].takeWhile Char.isDigit) : Int) - 1)
      ∧ emoji_to_index [Char.ofNat 0x1F3AE] = none
      ∧ (on_raw_reaction true demoState (keycap '5') 100 false true (some "u") true).state
        = demoState :=
  ⟨c2_emoji_index_amended.2.1 '4' ['2'] (by decide) (by decide),
   c2_emoji_index_amended.2.2.1 [Char.ofNat 0x1F3AE]
     (fun c cs h => by injection h with h1 h2; rw [← h1]; decide) (by decide),
   (c2_emoji_index_amended.2.2.2 true demoState (keycap '5') 100 false true
      (some "u") true ⟨J.str "E", [J.str "18:00"], 1⟩ 4 rfl (by decide) (by decide)).1⟩

theorem c7_toggle_idempotent_witness :
    on_raw_reaction true demoState2 (keycap '1') 100 false true (some "ala") true
      = ⟨demoState2, none, false⟩ :=
  (c7_toggle_idempotent demoState2 (keycap '1') 100 "E" "18:00" 0
    ⟨J.str "E", [J.str "18:00"], 1⟩ [J.str "ala"] "ala"
    rfl rfl (by decide) (by decide) rfl rfl).1 rfl

/-- C5: the rendered field body agrees with the spec's description for
every roster, and on the spec's sample counts. -/
theorem c5_slot_field_rendering :
    (∀ osoby : List String, slotFieldValue osoby = slotFieldValueSpec osoby)
      ∧ slotFieldValue [] = "brak zapisanych"
      ∧ capacityLine 4 = "🪑 Stoły: 1 (pełne)"
      ∧ capacityLine 5 = "🪑 Stoły: 1, ❗ Brakuje 3 do stołu"
      ∧ capacityLine 8 = "🪑 Stoły: 2 (pełne)" := by
  refine ⟨?_, rfl, rfl, rfl, rfl⟩
  intro osoby
  unfold slotFieldValue slotFieldValueSpec capacityLine
  cases osoby with
  | nil => rfl
  | cons x xs =>
    simp only [List.isEmpty_cons, Bool.false_eq_true, if_false, List.length_cons,
      bne_iff_ne, beq_iff_eq, ne_eq, ite_not]
    by_cases h4 : (xs.length + 1) % 4 = 0
    · rw [if_pos h4, if_pos h4]
      split
      · rfl
      · next hcond => exact absurd rfl hcond
    · have hb : ¬(4 - (xs.length + 1) % 4 = 0) := by omega
      rw [if_neg h4, if_neg h4]
      split
      · next hcond => exact absurd hcond hb
      · rfl

/-- C4: an advanced rule fires iff the day delta is a non-negative multiple
of the interval and the hour matches; for the configured rule
(2025-09-28, every 7 days, hour 19) this singles out 2025-09-28 and
2025-10-05 at 19:00 inside that window. -/
theorem c4_advanced_recurrence :
    (∀ today hour, schedFires rankedSroda today hour = true
        ↔ (toordinal 2025 9 28 ≤ today
            ∧ (today - toordinal 2025 9 28) % 7 = 0 ∧ hour = 19))
    ∧ toordinal 2025 10 5 = toordinal 2025 9 28 + 7
    ∧ (∀ today hour, toordinal 2025 9 28 ≤ today → today ≤ toordinal 2025 10 5 →
        (schedFires rankedSroda today hour = true
          ↔ ((today = toordinal 2025 9 28 ∨ today = toordinal 2025 10 5)
              ∧ hour = 19))) := by
  have hparse : parseYMD "2025-09-28" = some (2025, 9, 28) := by decide
  have hmain : ∀ today hour, schedFires rankedSroda today hour = true
      ↔ (toordinal 2025 9 28 ≤ today
          ∧ (today - toordinal 2025 9 28) % 7 = 0 ∧ hour = 19) := by
    intro today hour
    unfold schedFires
    simp only [rankedSroda, hparse]
    rw [Bool.and_eq_true, Bool.and_eq_true, decide_eq_true_iff, decide_eq_true_iff,
      beq_iff_eq]
    constructor
    · rintro ⟨⟨hd, hm⟩, hh⟩
      exact ⟨by omega, by omega, hh⟩
    · rintro ⟨hle, hm, hh⟩
      exact ⟨⟨by omega, by omega⟩, hh⟩
  have h7 : toordinal 2025 10 5 = toordinal 2025 9 28 + 7 := by decide
  refine ⟨hmain, h7, ?_⟩
  intro today hour hge hle
  rw [hmain]
  constructor
  · rintro ⟨h1, h2, h3⟩
    exact ⟨by omega, h3⟩
  · rintro ⟨h1, h2⟩
    exact ⟨by omega, by omega, h2⟩

theorem c4_advanced_recurrence_witness :
    schedFires rankedSroda (toordinal 2025 9 28) 19 = true :=
  (c4_advanced_recurrence.2.2 (toordinal 2025 9 28) 19 (le_refl _)
    (by decide)).mpr ⟨Or.inl rfl, rfl⟩

theorem digitChar_isDigit (k : Nat) (h : k < 10) : (digitChar k).isDigit = true := by
  interval_cases k <;> decide

theorem digitChar_val (k : Nat) (h : k < 10) : (digitChar k).toNat - 48 = k := by
  interval_cases k <;> decide

theorem digitsVal_append_digit (cs : List Char) (c : Char) :
    digitsVal (cs ++ [c]) = digitsVal cs * 10 + (c.toNat - 48) := by
  unfold digitsVal
  rw [List.foldl_append]
  rfl

theorem natDigitsAux_spec (fuel : Nat) : ∀ n : Nat, n < fuel →
    natDigitsAux n fuel ≠ []
      ∧ (natDigitsAux n fuel).all Char.isDigit = true
      ∧ digitsVal (natDigitsAux n fuel) = n := by
  induction fuel with
  | zero => intro n h; omega
  | succ f ih =>
    intro n h
    unfold natDigitsAux
    by_cases h10 : n < 10
    · rw [if_pos h10]
      refine ⟨by simp, ?_, ?_⟩
      · simp [digitChar_isDigit n h10]
      · show digitsVal ([] ++ [digitChar n]) = n
        rw [digitsVal_append_digit]
        simp [digitsVal, digitChar_val n h10]
    · rw [if_neg h10]
      obtain ⟨hne, hall, hval⟩ := ih (n / 10) (by omega)
      refine ⟨by simp, ?_, ?_⟩
      · rw [List.all_append, hall]
        simp [digitChar_isDigit (n % 10) (by omega)]
      · rw [digitsVal_append_digit, hval, digitChar_val (n % 10) (by omega)]
        omega

theorem natDigits_spec (n : Nat) :
    natDigits n ≠ [] ∧ (natDigits n).all Char.isDigit = true
      ∧ digitsVal (natDigits n) = n :=
  natDigitsAux_spec (n + 1) n (by omega)

theorem parseDigitsOpt_natDigits (n : Nat) : parseDigitsOpt (natDigits n) = some n := by
  obtain ⟨h1, h2, h3⟩ := natDigits_spec n
  rw [parseDigitsOpt, if_pos ⟨h1, h2⟩, h3]

theorem pyIntParse_intStr (n : Int) : pyIntParse (intStr n) = some n := by
  unfold intStr
  by_cases hn : n < 0
  · rw [if_pos hn]
    show pyIntParse (String.mk ('-' :: natDigits (-n).toNat)) = some n
    unfold pyIntParse
    dsimp only
    rw [if_pos rfl, parseDigitsOpt_natDigits]
    have : ((-n).toNat : Int) = -n := Int.toNat_of_nonneg (by omega)
    simp [this]
  · rw [if_neg hn]
    obtain ⟨h1, h2, h3⟩ := natDigits_spec n.toNat
    cases hd : natDigits n.toNat with
    | nil => exact absurd hd h1
    | cons c rest =>
      have hcdig : c.isDigit = true := by
        rw [hd, List.all_cons] at h2
        exact ((Bool.and_eq_true _ _).symm ▸ h2 : _ ∧ _).1
      have hcm : ¬(c = '-') := by
        intro hc
        rw [hc] at hcdig
        cases hcdig
      unfold pyIntParse
      dsimp only
      rw [if_neg hcm, ← hd, parseDigitsOpt_natDigits]
      have : (n.toNat : Int) = n := Int.toNat_of_nonneg (by omega)
      simp [this]

theorem loadMsgEntry_serialize (p : Int × MsgEntry) :
    loadMsgEntry (serializeMsgEntry p) = some p := by
  obtain ⟨mid, e⟩ := p
  unfold serializeMsgEntry loadMsgEntry
  rw [pyIntParse_intStr]
  rfl

theorem setMsg_append (acc : List (Int × MsgEntry)) (k : Int) (v : MsgEntry)
    (h : k ∉ acc.map Prod.fst) : setMsg acc k v = acc ++ [(k, v)] := by
  induction acc with
  | nil => rfl
  | cons q rest ih =>
    have hq : ¬(q.1 = k) := by
      intro hc
      exact h (by simp [hc])
    show setMsg (q :: rest) k v = q :: rest ++ [(k, v)]
    unfold setMsg
    rw [if_neg hq, ih (by intro hc; exact h (by simp [hc]))]
    rfl

theorem foldl_setMsg_eq (msgs : List (Int × MsgEntry)) :
    ∀ acc : List (Int × MsgEntry),
    ((acc ++ msgs).map Prod.fst).Nodup →
    msgs.foldl (fun a p => setMsg a p.1 p.2) acc = acc ++ msgs := by
  induction msgs with
  | nil => intro acc _; simp
  | cons p rest ih =>
    intro acc hnd
    have hk : p.1 ∉ acc.map Prod.fst := by
      intro hmem
      rw [List.map_append] at hnd
      obtain ⟨-, -, hdisj⟩ := List.nodup_append.mp hnd
      exact hdisj hmem (by simp)
    have hstep : setMsg acc p.1 p.2 = acc ++ [(p.1, p.2)] := setMsg_append acc p.1 p.2 hk
    show List.foldl (fun a q => setMsg a q.1 q.2) (setMsg acc p.1 p.2) rest = acc ++ p :: rest
    rw [hstep]
    have hrec := ih (acc ++ [(p.1, p.2)]) (by simpa using hnd)
    rw [hrec]
    simp

theorem loadMessages_map_serialize (msgs : List (Int × MsgEntry))
    (hnd : (msgs.map Prod.fst).Nodup) :
    loadMessages (msgs.map serializeMsgEntry) = msgs := by
  have hfold : ∀ (l : List (Int × MsgEntry)) (acc : List (Int × MsgEntry)),
      (l.map serializeMsgEntry).foldl
          (fun a kv => match loadMsgEntry kv with
            | some (mid, e) => setMsg a mid e
            | none => a) acc
        = l.foldl (fun a p => setMsg a p.1 p.2) acc := by
    intro l
    induction l with
    | nil => intro acc; rfl
    | cons p rest ih =>
      intro acc
      show ((rest.map serializeMsgEntry).foldl _
        (match loadMsgEntry (serializeMsgEntry p) with
          | some (mid, e) => setMsg acc mid e
          | none => acc)) = _
      rw [loadMsgEntry_serialize]
      exact ih (setMsg acc p.1 p.2)
  unfold loadMessages
  rw [hfold msgs []]
  exact foldl_setMsg_eq msgs [] (by simpa using hnd)

/-- C6: writing the state with `_serialize_for_save` and reading it back
with `load_data` reproduces the state exactly.  The two hypotheses hold in
every state the program builds: `messages` is a dict, so its keys are
distinct, and the in-memory `events` is never a falsy non-`{}` value
(commands keep it an object, and `load_data` itself replaces falsy values
by `{}`). -/
theorem c6_save_load_roundtrip (st : BotState)
    (hnd : (st.messages.map Prod.fst).Nodup)
    (hev : jTruthy st.events = true ∨ st.events = J.obj []) :
    load_data (_serialize_for_save st) = st := by
  obtain ⟨ev, msgs⟩ := st
  unfold _serialize_for_save load_data
  dsimp only at hnd hev ⊢
  have h1 : lookupF [("events", ev),
      ("messages", J.obj (msgs.map serializeMsgEntry))] "events" = some ev := rfl
  have h2 : lookupF [("events", ev),
      ("messages", J.obj (msgs.map serializeMsgEntry))] "messages"
      = some (J.obj (msgs.map serializeMsgEntry)) := rfl
  rw [h1, h2]
  dsimp only [Option.getD_some]
  have hevfix : (if jTruthy ev then ev else J.obj []) = ev := by
    rcases hev with hev | hev
    · rw [if_pos hev]
    · rw [hev]; simp [jTruthy]
  rw [hevfix]
  cases msgs with
  | nil => simp [jTruthy, loadMessages]
  | cons p rest =>
    have htr : jTruthy (J.obj ((p :: rest).map serializeMsgEntry)) = true := by
      simp [jTruthy]
    rw [if_pos htr]
    dsimp only
    rw [loadMessages_map_serialize (p :: rest) hnd]

theorem c6_save_load_roundtrip_witness :
    load_data (_serialize_for_save demoState2) = demoState2 :=
  c6_save_load_roundtrip demoState2 (by decide) (Or.inl rfl)

theorem lookupMsg_setMsg (acc : List (Int × MsgEntry)) (k : Int) (v : MsgEntry)
    (k2 : Int) :
    lookupMsg (setMsg acc k v) k2 = if k = k2 then some v else lookupMsg acc k2 := by
  induction acc with
  | nil =>
    show lookupMsg [(k, v)] k2 = _
    unfold lookupMsg
    split_ifs <;> rfl
  | cons q rest ih =>
    by_cases hq : q.1 = k
    · show lookupMsg (if q.1 = k then (q.1, v) :: rest else _) k2 = _
      rw [if_pos hq]
      unfold lookupMsg
      subst hq
      split_ifs <;> rfl
    · show lookupMsg (if q.1 = k then _ else (q.1, q.2) :: setMsg rest k v) k2 = _
      rw [if_neg hq]
      show (if q.1 = k2 then some q.2 else lookupMsg (setMsg rest k v) k2) = _
      rw [ih]
      by_cases hq2 : q.1 = k2
      · rw [if_pos hq2, if_neg (by omega), lookupMsg, if_pos hq2]
      · rw [if_neg hq2]
        by_cases hk2 : k = k2
        · rw [if_pos hk2, if_pos hk2]
        · rw [if_neg hk2, if_neg hk2, lookupMsg, if_neg hq2]

theorem lookupMsg_foldl_setMsg (l : List (Int × MsgEntry)) :
    ∀ (acc : List (Int × MsgEntry)) (k : Int),
    lookupMsg (l.foldl (fun a p => setMsg a p.1 p.2) acc) k
      = match lastVal l k with
        | some v => some v
        | none => lookupMsg acc k := by
  induction l with
  | nil => intro acc k; rfl
  | cons p rest ih =>
    intro acc k
    show lookupMsg (rest.foldl _ (setMsg acc p.1 p.2)) k = _
    rw [ih]
    show _ = (match (match lastVal rest k with
        | some v => some v
        | none => if p.1 = k then some p.2 else none) with
      | some v => some v
      | none => lookupMsg acc k)
    cases lastVal rest k with
    | some v => rfl
    | none =>
      dsimp only
      rw [lookupMsg_setMsg]
      by_cases hp : p.1 = k
      · rw [if_pos hp, if_pos hp]
      · rw [if_neg hp, if_neg hp]

theorem lastVal_of_not_mem (l : List (Int × MsgEntry)) (k : Int)
    (h : k ∉ l.map Prod.fst) : lastVal l k = none := by
  induction l with
  | nil => rfl
  | cons p rest ih =>
    have hp : ¬(p.1 = k) := by intro hc; exact h (by simp [hc])
    unfold lastVal
    rw [ih (by intro hc; exact h (by simp [hc])), if_neg hp]

theorem lastVal_of_count_one (l : List (Int × MsgEntry)) (mid : Int) (e : MsgEntry)
    (hmem : (mid, e) ∈ l) (hcount : (l.map Prod.fst).count mid = 1) :
    lastVal l mid = some e := by
  induction l with
  | nil => cases hmem
  | cons p rest ih =>
    rw [List.map_cons, List.count_cons] at hcount
    by_cases hp : p.1 = mid
    · have hzero : (rest.map Prod.fst).count mid = 0 := by
        simp [hp] at hcount
        omega
      have hnotin : mid ∉ rest.map Prod.fst := by
        rw [← List.count_pos_iff]
        omega
      have hpe : p = (mid, e) := by
        rcases List.mem_cons.mp hmem with hh | hh
        · exact hh.symm
        · exact absurd (by simpa using List.mem_map_of_mem Prod.fst hh : mid ∈ rest.map Prod.fst) hnotin
      unfold lastVal
      rw [lastVal_of_not_mem rest mid hnotin, if_pos hp, hpe]
    · have hrest : (mid, e) ∈ rest := by
        rcases List.mem_cons.mp hmem with hh | hh
        · exact absurd (congrArg Prod.fst hh.symm) hp
        · exact hh
      have hcount2 : (rest.map Prod.fst).count mid = 1 := by
        simp [hp] at hcount
        omega
      unfold lastVal
      rw [ih hrest hcount2]

/-- C8: `load_data` processes the `messages` entries one by one — the
loaded map is a fold of per-entry results, each failing entry skipped —
and any well-formed entry is loaded no matter what the other entries
contain (uniqueness of its key among the parsed entries pins the value
lookup). -/
theorem c8_per_entry_skip :
    (∀ ms : List (String × J), loadMessages ms
        = (ms.filterMap loadMsgEntry).foldl (fun acc p => setMsg acc p.1 p.2) [])
    ∧ (∀ (ms : List (String × J)) (k : String) (v : J) (mid : Int) (e : MsgEntry),
        (k, v) ∈ ms → loadMsgEntry (k, v) = some (mid, e) →
        ((ms.filterMap loadMsgEntry).map Prod.fst).count mid = 1 →
        lookupMsg (loadMessages ms) mid = some e) := by
  have hfm : ∀ (ms : List (String × J)) (acc : List (Int × MsgEntry)),
      ms.foldl (fun a kv => match loadMsgEntry kv with
          | some (mid, e) => setMsg a mid e
          | none => a) acc
        = (ms.filterMap loadMsgEntry).foldl (fun a p => setMsg a p.1 p.2) acc := by
    intro ms
    induction ms with
    | nil => intro acc; rfl
    | cons kv rest ih =>
      intro acc
      cases hl : loadMsgEntry kv with
      | none =>
        rw [List.foldl_cons, hl, List.filterMap_cons_none hl]
        exact ih acc
      | some p =>
        rw [List.foldl_cons, hl, List.filterMap_cons_some hl, List.foldl_cons]
        obtain ⟨mid, e⟩ := p
        exact ih (setMsg acc mid e)
  have hpart1 : ∀ ms : List (String × J), loadMessages ms
      = (ms.filterMap loadMsgEntry).foldl (fun acc p => setMsg acc p.1 p.2) [] := by
    intro ms
    unfold loadMessages
    exact hfm ms []
  refine ⟨hpart1, ?_⟩
  intro ms k v mid e hmem hload hcount
  rw [hpart1, lookupMsg_foldl_setMsg]
  have hmem2 : (mid, e) ∈ ms.filterMap loadMsgEntry :=
    List.mem_filterMap.mpr ⟨(k, v), hmem, hload⟩
  rw [lastVal_of_count_one _ mid e hmem2 hcount]

theorem c8_per_entry_skip_witness :
    lookupMsg (loadMessages
        [("zle", J.null),
         ("123", J.obj [("nazwa", J.str "E"), ("godziny", J.arr [J.str "18:00"]),
                        ("channel_id", J.num 5)])]) 123
      = some ⟨J.str "E", [J.str "18:00"], 5⟩ :=
  c8_per_entry_skip.2
    [("zle", J.null),
     ("123", J.obj [("nazwa", J.str "E"), ("godziny", J.arr [J.str "18:00"]),
                    ("channel_id", J.num 5)])]
    "123"
    (J.obj [("nazwa", J.str "E"), ("godziny", J.arr [J.str "18:00"]),
            ("channel_id", J.num 5)])
    123 ⟨J.str "E", [J.str "18:00"], 5⟩
    (by simp) rfl (by decide)

theorem c3_role_roster_exclusive_witness :
    (on_raw_reaction true demoState [Char.ofNat 0x1F3AE] 100 false true
        (some "u") true).state = demoState
      ∧ (on_raw_reaction true demoState [Char.ofNat 0x1F3AE] 100 false true
          (some "u") true).roleAction
        = (on_raw_reaction true demoState2 [Char.ofNat 0x1F3AE] 999 false true
          (some "u") true).roleAction :=
  ⟨(c3_role_roster_exclusive.1 true demoState [Char.ofNat 0x1F3AE] 100 false true
      (some "u") true (by decide)).1,
   c3_role_roster_exclusive.2.2.2 true demoState demoState2 [Char.ofNat 0x1F3AE]
     100 999 false true (some "u") true⟩
